import Mathlib

/-!
Shallow embedding of the multimodal hashing and media-cache core of this
repository (vllm/multimodal/hasher.py and vllm/multimodal/media_cache.py),
together with proofs and refutations of the specification's claims about it.

Python machine integers and byte values are modelled as `Nat` (with explicit
`% 2 ^ 32` / `% 2 ^ 64` where the source relies on fixed-width arithmetic),
Python `str` as `String` (serialized through an explicit UTF-8 encoder),
Python mappings as insertion-ordered association lists, and fallible code as
`Except`.  The external hash libraries that the source calls (`blake3` and
`hashlib.sha256`) are implemented here in full so that digests are concretely
computable; both implementations were checked against the published test
vectors of the respective algorithms.
-/

set_option maxRecDepth 1000000

/-- Little-endian byte decomposition: `natToLEBytes k n` is the `k` low-order
bytes of `n`, least significant first. -/
def natToLEBytes : Nat → Nat → List Nat
| 0, _ => []
| k + 1, n => n % 256 :: natToLEBytes k (n / 256)

/-- Fuel-driven worker for `splitInto` (fuel = length of the list, so the
fuel never runs out for `size ≥ 1`). -/
def splitIntoAux (size : Nat) : Nat → List Nat → List (List Nat)
| _, [] => []
| 0, l => [l]
| fuel + 1, l => l.take size :: splitIntoAux size fuel (l.drop size)

/-- Split a byte list into consecutive blocks of `size` bytes (the final block
may be shorter). -/
def splitInto (size : Nat) (l : List Nat) : List (List Nat) :=
  splitIntoAux size l.length l

/-- UTF-8 encoding of a single code point (the encoding `str.encode("utf-8")`
applies per character). -/
def utf8EncodeChar (c : Char) : List Nat :=
  let n := c.toNat
  if n < 128 then [n]
  else if n < 2048 then [192 ||| (n >>> 6), 128 ||| (n &&& 63)]
  else if n < 65536 then
    [224 ||| (n >>> 12), 128 ||| ((n >>> 6) &&& 63), 128 ||| (n &&& 63)]
  else
    [240 ||| (n >>> 18), 128 ||| ((n >>> 12) &&& 63),
     128 ||| ((n >>> 6) &&& 63), 128 ||| (n &&& 63)]

/-- The bytes of `s.encode("utf-8")`. -/
def utf8Bytes (s : String) : List Nat :=
  (s.data.map utf8EncodeChar).flatten

/-- The sixteen lowercase hexadecimal digits. -/
def hexDigitChars : List Char := "0123456789abcdef".data

/-- Lowercase hexadecimal digit for a value below 16. -/
def hexChar (n : Nat) : Char := hexDigitChars.getD n '0'

/-- Lowercase hexadecimal rendering of a byte list, two digits per byte —
the format of `hexdigest()`. -/
def hexString (bytes : List Nat) : String :=
  ⟨(bytes.map (fun b => [hexChar (b / 16), hexChar (b % 16)])).flatten⟩

/-- Addition on 32-bit words. -/
def add32 (a b : Nat) : Nat := (a + b) % 4294967296

/-- Right rotation of a 32-bit word by `n` bits. -/
def rotr32 (x n : Nat) : Nat := (x >>> n) ||| ((x % 2 ^ n) <<< (32 - n))

/-- A 32-bit word from up to four little-endian bytes. -/
def leWordOfBytes (l : List Nat) : Nat := l.foldr (fun b acc => b + 256 * acc) 0

/-- 32-bit words from a little-endian byte list, four bytes per word. -/
def leWordsOfBytes (l : List Nat) : List Nat := (splitInto 4 l).map leWordOfBytes

/-- Little-endian byte list of a list of 32-bit words. -/
def leBytesOfWords (ws : List Nat) : List Nat :=
  (ws.map (fun w => [w % 256, w / 256 % 256, w / 65536 % 256, w / 16777216 % 256])).flatten

/-! ### BLAKE3

A complete executable implementation of the BLAKE3 hash (default 32-byte
output), modelling the external `blake3` library used by `hash_kwargs`.
Flag constants: CHUNK_START = 1, CHUNK_END = 2, PARENT = 4, ROOT = 8. -/

/-- The BLAKE3 initialization vector (the SHA-256 IV words). -/
def b3IV : List Nat :=
  [1779033703, 3144134277, 1013904242, 2773480762,
   1359893119, 2600822924, 528734635, 1541459225]

/-- The BLAKE3 message word permutation applied between rounds. -/
def b3MsgPermutation : List Nat := [2, 6, 3, 10, 7, 0, 4, 13, 1, 11, 12, 5, 9, 14, 15, 8]

/-- The BLAKE3 quarter-round mixing function `g` on a 16-word state. -/
def b3Mix (st : List Nat) (a b c d mx my : Nat) : List Nat :=
  let sa := add32 (add32 (st.getD a 0) (st.getD b 0)) mx
  let sd := rotr32 ((st.getD d 0) ^^^ sa) 16
  let sc := add32 (st.getD c 0) sd
  let sb := rotr32 ((st.getD b 0) ^^^ sc) 12
  let sa' := add32 (add32 sa sb) my
  let sd' := rotr32 (sd ^^^ sa') 8
  let sc' := add32 sc sd'
  let sb' := rotr32 (sb ^^^ sc') 7
  ((((((((st.set a sa).set d sd).set c sc).set b sb).set a sa').set d sd').set c sc').set b sb')

/-- One full BLAKE3 round: four column mixes then four diagonal mixes. -/
def b3Round (st m : List Nat) : List Nat :=
  let st := b3Mix st 0 4 8 12 (m.getD 0 0) (m.getD 1 0)
  let st := b3Mix st 1 5 9 13 (m.getD 2 0) (m.getD 3 0)
  let st := b3Mix st 2 6 10 14 (m.getD 4 0) (m.getD 5 0)
  let st := b3Mix st 3 7 11 15 (m.getD 6 0) (m.getD 7 0)
  let st := b3Mix st 0 5 10 15 (m.getD 8 0) (m.getD 9 0)
  let st := b3Mix st 1 6 11 12 (m.getD 10 0) (m.getD 11 0)
  let st := b3Mix st 2 7 8 13 (m.getD 12 0) (m.getD 13 0)
  b3Mix st 3 4 9 14 (m.getD 14 0) (m.getD 15 0)

/-- Permute the sixteen message words for the next round. -/
def b3PermuteWords (m : List Nat) : List Nat := b3MsgPermutation.map (fun i => m.getD i 0)

/-- Iterate `b3Round`, permuting the message words between rounds. -/
def b3Rounds : Nat → List Nat → List Nat → List Nat
| 0, st, _ => st
| k + 1, st, m => b3Rounds k (b3Round st m) (b3PermuteWords m)

/-- The BLAKE3 compression function: 8-word chaining value, 16 message words,
64-bit counter, block byte count and flags, producing 16 output words. -/
def b3Compress (cv block : List Nat) (counter blockLen flags : Nat) : List Nat :=
  let st0 := cv ++ b3IV.take 4 ++
    [counter % 4294967296, counter / 4294967296 % 4294967296, blockLen, flags]
  let st := b3Rounds 7 st0 block
  (List.range 8).map (fun i => (st.getD i 0) ^^^ (st.getD (i + 8) 0)) ++
  (List.range 8).map (fun i => (st.getD (i + 8) 0) ^^^ (cv.getD i 0))

/-- A pending BLAKE3 compression: the inputs of the final compression of a
chunk or parent node, kept so the ROOT flag can be added when it turns out to
be the root. -/
structure B3Output where
  inputCV : List Nat
  blockWords : List Nat
  counter : Nat
  blockLen : Nat
  flags : Nat

/-- Chaining value of a non-root node: the first 8 output words. -/
def b3ChainingValue (o : B3Output) : List Nat :=
  (b3Compress o.inputCV o.blockWords o.counter o.blockLen o.flags).take 8

/-- The sixteen message words of a block, zero-padded to 64 bytes. -/
def b3WordsOfBlock (b : List Nat) : List Nat :=
  leWordsOfBytes (b ++ List.replicate (64 - b.length) 0)

/-- The 64-byte blocks of a chunk; an empty chunk still has one empty block. -/
def b3ChunkBlocks (bytes : List Nat) : List (List Nat) :=
  let bs := splitInto 64 bytes
  if bs.isEmpty then [[]] else bs

/-- Fold the blocks of a chunk: every block of a chunk is compressed with the
chunk counter, CHUNK_START on the first block only, and the final block is
returned as a pending compression carrying CHUNK_END. -/
def b3ChunkGo (counter : Nat) (cv : List Nat) (startFlag : Nat) :
    List (List Nat) → B3Output
| [] => ⟨cv, b3WordsOfBlock [], counter, 0, startFlag ||| 2⟩
| [b] => ⟨cv, b3WordsOfBlock b, counter, b.length, startFlag ||| 2⟩
| b :: b2 :: rest =>
  b3ChunkGo counter
    ((b3Compress cv (b3WordsOfBlock b) counter 64 startFlag).take 8) 0 (b2 :: rest)

/-- Pending final compression of the chunk with index `idx`. -/
def b3ChunkOutput (idx : Nat) (bytes : List Nat) : B3Output :=
  b3ChunkGo idx b3IV 1 (b3ChunkBlocks bytes)

/-- Pending compression of a parent node over two child chaining values. -/
def b3ParentOutput (cvL cvR : List Nat) : B3Output := ⟨b3IV, cvL ++ cvR, 0, 64, 4⟩

/-- Byte count of the left subtree: the largest power-of-two number of full
chunks strictly covering less than the whole input. -/
def b3LeftLen (n : Nat) : Nat := 1024 * 2 ^ Nat.log2 ((n - 1) / 1024)

/-- Chaining value of the subtree hashing `bytes`, whose first chunk has index
`idx`.  The fuel (instantiated with the byte count) bounds the recursion
depth; each split strictly shrinks the byte list, so it never runs out. -/
def b3SubtreeCV : Nat → Nat → List Nat → List Nat
| 0, idx, bytes => b3ChainingValue (b3ChunkOutput idx bytes)
| fuel + 1, idx, bytes =>
  if bytes.length ≤ 1024 then b3ChainingValue (b3ChunkOutput idx bytes)
  else
    let l := b3LeftLen bytes.length
    b3ChainingValue (b3ParentOutput
      (b3SubtreeCV fuel idx (bytes.take l))
      (b3SubtreeCV fuel (idx + l / 1024) (bytes.drop l)))

/-- The pending root compression for a whole message. -/
def b3RootOutput (bytes : List Nat) : B3Output :=
  if bytes.length ≤ 1024 then b3ChunkOutput 0 bytes
  else
    let l := b3LeftLen bytes.length
    b3ParentOutput
      (b3SubtreeCV bytes.length 0 (bytes.take l))
      (b3SubtreeCV bytes.length (l / 1024) (bytes.drop l))

/-- First 32 output bytes of a pending compression re-run with the ROOT flag
and output block counter 0. -/
def b3RootBytes (o : B3Output) : List Nat :=
  leBytesOfWords ((b3Compress o.inputCV o.blockWords 0 o.blockLen (o.flags ||| 8)).take 8)

/-- The 32-byte BLAKE3 digest of a byte list. -/
def blake3Bytes (bytes : List Nat) : List Nat := b3RootBytes (b3RootOutput bytes)

/-! ### SHA-256

A complete executable implementation of SHA-256, modelling
`hashlib.sha256(...).hexdigest()` used by `MediaCache._get_url_hash`. -/

/-- The SHA-256 round constants. -/
def sha256K : List Nat :=
  [1116352408, 1899447441, 3049323471, 3921009573, 961987163, 1508970993,
   2453635748, 2870763221, 3624381080, 310598401, 607225278, 1426881987,
   1925078388, 2162078206, 2614888103, 3248222580, 3835390401, 4022224774,
   264347078, 604807628, 770255983, 1249150122, 1555081692, 1996064986,
   2554220882, 2821834349, 2952996808, 3210313671, 3336571891, 3584528711,
   113926993, 338241895, 666307205, 773529912, 1294757372, 1396182291,
   1695183700, 1986661051, 2177026350, 2456956037, 2730485921, 2820302411,
   3259730800, 3345764771, 3516065817, 3600352804, 4094571909, 275423344,
   430227734, 506948616, 659060556, 883997877, 958139571, 1322822218,
   1537002063, 1747873779, 1955562222, 2024104815, 2227730452, 2361852424,
   2428436474, 2756734187, 3204031479, 3329325298]

/-- The SHA-256 initial hash value. -/
def sha256H0 : List Nat :=
  [1779033703, 3144134277, 1013904242, 2773480762,
   1359893119, 2600822924, 528734635, 1541459225]

/-- A 32-bit word from up to four big-endian bytes. -/
def beWordOfBytes (l : List Nat) : Nat := l.foldl (fun acc b => acc * 256 + b) 0

/-- 32-bit words from a big-endian byte list, four bytes per word. -/
def beWordsOfBytes (l : List Nat) : List Nat := (splitInto 4 l).map beWordOfBytes

/-- Big-endian byte list of a list of 32-bit words. -/
def beBytesOfWords (ws : List Nat) : List Nat :=
  (ws.map (fun w => [w / 16777216 % 256, w / 65536 % 256, w / 256 % 256, w % 256])).flatten

/-- SHA-256 small sigma 0. -/
def shaSsig0 (x : Nat) : Nat := (rotr32 x 7) ^^^ (rotr32 x 18) ^^^ (x >>> 3)

/-- SHA-256 small sigma 1. -/
def shaSsig1 (x : Nat) : Nat := (rotr32 x 17) ^^^ (rotr32 x 19) ^^^ (x >>> 10)

/-- SHA-256 big sigma 0. -/
def shaBsig0 (x : Nat) : Nat := (rotr32 x 2) ^^^ (rotr32 x 13) ^^^ (rotr32 x 22)

/-- SHA-256 big sigma 1. -/
def shaBsig1 (x : Nat) : Nat := (rotr32 x 6) ^^^ (rotr32 x 11) ^^^ (rotr32 x 25)

/-- SHA-256 choice function. -/
def shaCh (e f gw : Nat) : Nat := (e &&& f) ^^^ ((e ^^^ 4294967295) &&& gw)

/-- SHA-256 majority function. -/
def shaMaj (a b c : Nat) : Nat := (a &&& b) ^^^ (a &&& c) ^^^ (b &&& c)

/-- Append the next word of the SHA-256 message schedule. -/
def shaExtendStep (w : List Nat) : List Nat :=
  w ++ [add32 (add32 (shaSsig1 (w.getD (w.length - 2) 0)) (w.getD (w.length - 7) 0))
          (add32 (shaSsig0 (w.getD (w.length - 15) 0)) (w.getD (w.length - 16) 0))]

/-- Extend the 16 block words to the 64-word message schedule. -/
def shaExtend : Nat → List Nat → List Nat
| 0, w => w
| k + 1, w => shaExtend k (shaExtendStep w)

/-- One SHA-256 compression round on the eight working variables. -/
def shaRound (st : List Nat) (kt wt : Nat) : List Nat :=
  match st with
  | [a, b, c, d, e, f, gw, h] =>
    let t1 := add32 h (add32 (shaBsig1 e) (add32 (shaCh e f gw) (add32 kt wt)))
    let t2 := add32 (shaBsig0 a) (shaMaj a b c)
    [add32 t1 t2, a, b, c, add32 d t1, e, f, gw]
  | _ => st

/-- Compress one 64-byte block into the running hash value. -/
def sha256CompressBlock (h : List Nat) (block : List Nat) : List Nat :=
  let w := shaExtend 48 (beWordsOfBytes block)
  let st := (List.range 64).foldl (fun st t => shaRound st (sha256K.getD t 0) (w.getD t 0)) h
  (List.range 8).map (fun i => add32 (h.getD i 0) (st.getD i 0))

/-- SHA-256 padding: a 0x80 byte, zeros to 56 mod 64, then the bit length as
eight big-endian bytes. -/
def sha256Pad (msg : List Nat) : List Nat :=
  msg ++ [128] ++ List.replicate ((64 - (msg.length + 9) % 64) % 64) 0 ++
    (natToLEBytes 8 (8 * msg.length)).reverse

/-- The 32-byte SHA-256 digest of a byte list. -/
def sha256Bytes (msg : List Nat) : List Nat :=
  beBytesOfWords ((splitInto 64 (sha256Pad msg)).foldl sha256CompressBlock sha256H0)

/-! ### The canonical encoder (`MultiModalHasher`)

`serialize_item` / `iter_item_to_bytes` / `item_to_bytes` / `hash_kwargs`
from vllm/multimodal/hasher.py.  The value universe covers the kinds the
claims exercise: strings, byte buffers, Python ints (serialized by
`np.array(obj).tobytes()` as 8-byte little-endian int64, the numpy default on
64-bit Linux), Python floats (serialized by `np.array(obj).tobytes()` as the
8 little-endian bytes of the IEEE-754 double bit pattern, carried here
explicitly as the `bits` field), lists/tuples, dicts, and numpy arrays.
The `PIL.Image` / `torch.Tensor` / pickle-fallback branches of
`serialize_item` are not exercised by any claim and are omitted. -/

/-- A numpy array as `serialize_item` sees it: its dtype string, shape,
underlying memory bytes (`obj.data`), logical row-major C-order bytes
(`obj.tobytes()`), and the C-contiguity flag.  For a C-contiguous array the
memory bytes are exactly the row-major bytes; that numpy invariant is taken
as a hypothesis where needed rather than baked into the type. -/
structure NDArray where
  dtypeStr : String
  shape : List Nat
  buffer : List Nat
  rowMajor : List Nat
  cContiguous : Bool
deriving DecidableEq

/-- Values of the payload dictionary that the `ndarray` branch of
`serialize_item` builds and feeds back into `item_to_bytes`.  This layer is
stratified below the full value type `V` so that both levels of the source's
recursion (`serialize_item` constructs a fresh dict and recurses into it) are
structurally terminating; the iteration and leaf encodings are identical to
the `V` layer. -/
inductive PV where
| str (s : String)
| bytes (b : List Nat)
| int (i : Int)
| list (xs : List PV)
| dict (kvs : List (String × PV))

/-- Serialization of a Python int leaf: `np.array(i).tobytes()` with the
default int64 dtype — the 8 little-endian bytes of the two's-complement
representation. -/
def int64Bytes (i : Int) : List Nat :=
  natToLEBytes 8 (i % 18446744073709551616).toNat

/-- Leaf serialization at the payload layer (`serialize_item` restricted to
the leaf kinds that occur in the ndarray payload).  `list`/`dict` never reach
this function: `iter_item_to_bytes` recurses into them first. -/
def serializePV : PV → List Nat
| .str s => utf8Bytes s
| .bytes b => b
| .int i => int64Bytes i
| .list _ => []
| .dict _ => []

mutual

/-- `iter_item_to_bytes` at the payload layer: lists and tuples expand each
element `i` under the label `key ++ "." ++ i`, dicts expand each entry `k`
under `key ++ "." ++ k` in insertion order, and every other value yields the
single pair (UTF-8 label bytes, serialized leaf bytes). -/
def iterPV : String → PV → List (List Nat × List Nat)
| key, .list xs => iterPVList key 0 xs
| key, .dict kvs => iterPVDict key kvs
| key, v => [(utf8Bytes key, serializePV v)]

/-- Elementwise expansion of a payload-layer list, tracking the index. -/
def iterPVList : String → Nat → List PV → List (List Nat × List Nat)
| _, _, [] => []
| key, i, x :: xs => iterPV (key ++ "." ++ toString i) x ++ iterPVList key (i + 1) xs

/-- Entrywise expansion of a payload-layer dict in insertion order. -/
def iterPVDict : String → List (String × PV) → List (List Nat × List Nat)
| _, [] => []
| key, (k, v) :: kvs => iterPV (key ++ "." ++ k) v ++ iterPVDict key kvs

end

/-- `item_to_bytes` at the payload layer: concatenation of every label/payload
pair with no separator. -/
def item_to_bytesPV (key : String) (v : PV) : List Nat :=
  ((iterPV key v).map (fun p => p.1 ++ p.2)).flatten

/-- The `np.ndarray` branch of `serialize_item`: take `obj.data` if the array
is C-contiguous, else a contiguous copy `obj.tobytes()`, and encode the
compound payload dict under the fixed key "ndarray". -/
def serializeNDArray (a : NDArray) : List Nat :=
  let arr_data := if a.cContiguous then a.buffer else a.rowMajor
  item_to_bytesPV "ndarray" (.dict
    [("dtype", .str a.dtypeStr),
     ("shape", .list (a.shape.map (fun n => .int (Int.ofNat n)))),
     ("data", .bytes arr_data)])

/-- The universe of hashable values exercised by the claims.  `float bits` is
a Python float carried as the `Nat` bit pattern of its IEEE-754 double
representation (e.g. `0` for `0.0`, `4607182418800017408` for `1.0`). -/
inductive V where
| str (s : String)
| bytes (b : List Nat)
| int (i : Int)
| float (bits : Nat)
| list (xs : List V)
| dict (kvs : List (String × V))
| ndarray (a : NDArray)

/-- `MultiModalHasher.serialize_item`: strings encode as UTF-8, byte buffers
pass through unchanged, ints and floats as `np.array(obj).tobytes()` (8-byte
int64 little-endian and IEEE-754 double little-endian respectively, with no
type tag), and numpy arrays as the compound dtype/shape/data payload.
`list`/`dict` never reach this function: `iter_item_to_bytes` recurses into
them first. -/
def serialize_item : V → List Nat
| .str s => utf8Bytes s
| .bytes b => b
| .int i => int64Bytes i
| .float bits => natToLEBytes 8 bits
| .ndarray a => serializeNDArray a
| .list _ => []
| .dict _ => []

mutual

/-- `MultiModalHasher.iter_item_to_bytes`: lists and tuples expand each
element `i` under the label `key ++ "." ++ i`, dicts expand each entry `k`
under `key ++ "." ++ k` in insertion order, and every other value yields the
single pair (UTF-8 label bytes, `serialize_item` bytes). -/
def iter_item_to_bytes : String → V → List (List Nat × List Nat)
| key, .list xs => iterVList key 0 xs
| key, .dict kvs => iterVDict key kvs
| key, v => [(utf8Bytes key, serialize_item v)]

/-- Elementwise expansion of a list value, tracking the element index. -/
def iterVList : String → Nat → List V → List (List Nat × List Nat)
| _, _, [] => []
| key, i, x :: xs => iter_item_to_bytes (key ++ "." ++ toString i) x ++ iterVList key (i + 1) xs

/-- Entrywise expansion of a dict value in insertion order. -/
def iterVDict : String → List (String × V) → List (List Nat × List Nat)
| _, [] => []
| key, (k, v) :: kvs => iter_item_to_bytes (key ++ "." ++ k) v ++ iterVDict key kvs

end

/-- `MultiModalHasher.item_to_bytes`: the concatenation of every label and
payload of `iter_item_to_bytes`, with no separator. -/
def item_to_bytes (key : String) (v : V) : List Nat :=
  ((iter_item_to_bytes key v).map (fun p => p.1 ++ p.2)).flatten

/-- `MultiModalHasher.hash_kwargs`: one streaming blake3 accumulator receives,
for each keyword argument in order and for each (label, payload) pair of its
encoding, the label bytes then the payload bytes as two consecutive updates
(an update appends to the hashed stream), and the digest is returned as a
lowercase hex string.  Keyword arguments are modelled as the insertion-ordered
association list of the `**kwargs` dict. -/
def hash_kwargs (kwargs : List (String × V)) : String :=
  let fed := kwargs.foldl (fun acc kv =>
    (iter_item_to_bytes kv.1 kv.2).foldl (fun acc2 p => acc2 ++ p.1 ++ p.2) acc) []
  hexString (blake3Bytes fed)

/-- The flat byte stream the accumulator of `hash_kwargs` ends up hashing:
for each keyword argument in order, the label bytes immediately followed by
the payload bytes of every emitted pair, with no separator or length prefix
between segments. -/
def concatenatedStream (kwargs : List (String × V)) : List Nat :=
  (kwargs.map (fun kv => ((iter_item_to_bytes kv.1 kv.2).map (fun p => p.1 ++ p.2)).flatten)).flatten

/-- Whether a value is a Python `str`. -/
def isStrV : V → Bool
| .str _ => true
| _ => false

/-- `MultiModalHasher._hash_with_url_optimization`: rebuild the kwargs dict,
keeping a string value of a `*_url` key as-is (the "URL shortcut" branch) and
keeping every other value as-is too, then hash the rebuilt dict. -/
def hash_with_url_optimization (kwargs : List (String × V)) : String :=
  let optimized_kwargs := kwargs.map (fun kv =>
    if kv.1.endsWith "_url" && isStrV kv.2 then (kv.1, kv.2) else (kv.1, kv.2))
  hash_kwargs optimized_kwargs

/-- The modality classes probed for caller-supplied UUID fields, in order. -/
def modalities : List String := ["image", "video", "audio"]

/-- Contribution of one `<modality>_uuids` field to the cache keys: absent
fields contribute nothing, a list value contributes its elements
(`cache_keys.extend`), any other value contributes itself
(`cache_keys.append`). -/
def uuidContribution : Option V → List V
| some (.list xs) => xs
| some v => [v]
| none => []

/-- The cache keys collected from the `<modality>_uuids` fields alone, in
modality order image, video, audio. -/
def uuidCacheKeys (mm_data : List (String × V)) : List V :=
  (modalities.map (fun m => uuidContribution (mm_data.lookup (m ++ "_uuids")))).flatten

/-- `MultiModalHasher.get_cache_keys_from_mm_data`: UUID fields take
precedence; only when they contribute no key at all does the function fall
back to a single URL-optimized content hash of the whole mapping. -/
def get_cache_keys_from_mm_data (mm_data : List (String × V)) : List V :=
  let cache_keys := uuidCacheKeys mm_data
  if cache_keys.isEmpty then [.str (hash_with_url_optimization mm_data)] else cache_keys

/-! ### The media cache (`MediaCache`)

vllm/multimodal/media_cache.py.  The backing `LRUCache` class lives in
`vllm.utils`, outside the visible source.
Modelled from the spec: the LRU store is an insertion/recency-ordered list of
entries (least recently used first) with byte-size accounting; `get` promotes
a hit to most recently used; assignment inserts at most recently used and then
evicts least-recently-used entries until the total accounted size fits the
capacity, except that a single oversized freshly-inserted entry is retained;
a payload's accounted size is a fixed attribute of the payload (same payload,
same size).  Capacity is a byte count fixed at construction. -/

/-- A cached media payload together with its accounted byte size.
Modelled from the spec: the payload itself is opaque; `sizeBytes` is the
size-accounting estimate, a function of the payload. -/
structure MediaData where
  payload : String
  sizeBytes : Nat
deriving DecidableEq

/-- The state of a `MediaCache`: fixed byte capacity and the entry list in
recency order, least recently used first. -/
structure MediaCacheState where
  capacity : Nat
  entries : List (String × MediaData)
deriving DecidableEq

/-- Total accounted size of a list of entries. -/
def totalSize (entries : List (String × MediaData)) : Nat :=
  (entries.map (fun e => e.2.sizeBytes)).sum

/-- Eviction loop, least recently used first: drop entries from the front
until the total fits the capacity or a single entry remains. -/
def evictEntries (capacity : Nat) : List (String × MediaData) → List (String × MediaData)
| [] => []
| e :: rest =>
  if totalSize (e :: rest) ≤ capacity ∨ rest = [] then e :: rest
  else evictEntries capacity rest

/-- `LRUCache.__setitem__` as used by `MediaCache.put`: replace any existing
entry for the key, insert at the most-recently-used end, then evict. -/
def lruPut (st : MediaCacheState) (key : String) (d : MediaData) : MediaCacheState :=
  ⟨st.capacity, evictEntries st.capacity ((st.entries.filter (fun e => e.1 != key)) ++ [(key, d)])⟩

/-- `LRUCache.get` as used by `MediaCache.get`: on a hit, promote the entry to
most recently used and return its payload; on a miss return `none` with the
state unchanged. -/
def lruGet (st : MediaCacheState) (key : String) : Option MediaData × MediaCacheState :=
  match st.entries.find? (fun e => e.1 == key) with
  | some e => (some e.2, ⟨st.capacity, (st.entries.filter (fun e2 => e2.1 != key)) ++ [e]⟩)
  | none => (none, st)

/-- `MediaCache._get_url_hash`: the SHA-256 hex digest of the UTF-8 bytes of
the URL. -/
def get_url_hash (url : String) : String := hexString (sha256Bytes (utf8Bytes url))

/-- The `elif url:` leg of key derivation: a non-empty URL string yields its
hash, anything else yields no key (Python truthiness: `None` and `""` are
falsy). -/
def resolveUrlKey : Option String → Option String
| some l => if l == "" then none else some (get_url_hash l)
| none => none

/-- The key-derivation rule shared by `MediaCache.get` and `MediaCache.put`:
`if uuid: ... elif url: ... else: ...` under Python truthiness. -/
def resolveCacheKey (uuid url : Option String) : Option String :=
  match uuid with
  | some u => if u == "" then resolveUrlKey url else some u
  | none => resolveUrlKey url

/-- `MediaCache.get`: derive the key; with no derivable key return `None`
(state unchanged), otherwise look it up in the LRU store. -/
def MediaCache_get (st : MediaCacheState) (uuid : Option String) (url : Option String) :
    Option MediaData × MediaCacheState :=
  match resolveCacheKey uuid url with
  | none => (none, st)
  | some k => lruGet st k

/-- `MediaCache.put`: derive the key; with no derivable key raise
`ValueError("Either uuid or url must be provided")`, otherwise store the
payload and return the key used. -/
def MediaCache_put (st : MediaCacheState) (data : MediaData)
    (uuid : Option String) (url : Option String) :
    Except String (String × MediaCacheState) :=
  match resolveCacheKey uuid url with
  | none => Except.error "Either uuid or url must be provided"
  | some k => Except.ok (k, lruPut st k data)

/-- `MediaCache.clear`: empty the store, keeping the capacity. -/
def MediaCache_clear (st : MediaCacheState) : MediaCacheState := ⟨st.capacity, []⟩

/-- A fresh cache with the given byte capacity and no entries. -/
def mkMediaCache (capacityBytes : Nat) : MediaCacheState := ⟨capacityBytes, []⟩

/-! ### Helper lemmas -/

theorem foldl_append_pairs (l : List (List Nat × List Nat)) (acc : List Nat) :
    l.foldl (fun a p => a ++ p.1 ++ p.2) acc = acc ++ (l.map (fun p => p.1 ++ p.2)).flatten := by
  induction l generalizing acc with
  | nil => simp
  | cons p l ih =>
    simp only [List.foldl_cons, List.map_cons, List.flatten_cons]
    rw [ih]
    simp [List.append_assoc]

theorem hash_kwargs_fed_eq (kwargs : List (String × V)) (acc : List Nat) :
    kwargs.foldl (fun acc2 kv =>
      (iter_item_to_bytes kv.1 kv.2).foldl (fun a p => a ++ p.1 ++ p.2) acc2) acc
      = acc ++ concatenatedStream kwargs := by
  induction kwargs generalizing acc with
  | nil => simp [concatenatedStream]
  | cons kv kwargs ih =>
    simp only [List.foldl_cons, concatenatedStream, List.map_cons, List.flatten_cons]
    rw [foldl_append_pairs, ih]
    simp [concatenatedStream, List.append_assoc]

theorem hash_kwargs_eq_stream_hash (kwargs : List (String × V)) :
    hash_kwargs kwargs = hexString (blake3Bytes (concatenatedStream kwargs)) := by
  unfold hash_kwargs
  rw [hash_kwargs_fed_eq]
  rfl

theorem hexChar_mem (n : Nat) : hexChar n ∈ hexDigitChars := by
  rcases Nat.lt_or_ge n 16 with h | h
  · interval_cases n <;> decide
  · have hlen : hexDigitChars.length ≤ n := by
      simpa [hexDigitChars] using h
    simp [hexChar, List.getD_eq_getElem?_getD, List.getElem?_eq_none hlen]
    decide

theorem hexString_data (bytes : List Nat) :
    (hexString bytes).data = (bytes.map (fun b => [hexChar (b / 16), hexChar (b % 16)])).flatten := rfl

theorem hexString_length (bytes : List Nat) : (hexString bytes).length = 2 * bytes.length := by
  show (hexString bytes).data.length = 2 * bytes.length
  rw [hexString_data]
  induction bytes with
  | nil => rfl
  | cons b bs ih => simp_all; omega

theorem leBytesOfWords_length (ws : List Nat) : (leBytesOfWords ws).length = 4 * ws.length := by
  unfold leBytesOfWords
  induction ws with
  | nil => rfl
  | cons w ws ih => simp_all; omega

theorem b3Compress_length (cv block : List Nat) (counter blockLen flags : Nat) :
    (b3Compress cv block counter blockLen flags).length = 16 := by
  simp [b3Compress]

theorem blake3Bytes_length (bytes : List Nat) : (blake3Bytes bytes).length = 32 := by
  unfold blake3Bytes b3RootBytes
  rw [leBytesOfWords_length, List.length_take, b3Compress_length]
  decide

theorem evictEntries_ne_nil (capacity : Nat) :
    ∀ l : List (String × MediaData), l ≠ [] → evictEntries capacity l ≠ [] := by
  intro l
  induction l with
  | nil => intro h; exact absurd rfl h
  | cons e rest ih =>
    intro _
    rw [evictEntries]
    by_cases hc : totalSize (e :: rest) ≤ capacity ∨ rest = []
    · rw [if_pos hc]; simp
    · rw [if_neg hc]
      exact ih (fun hr => hc (Or.inr hr))

theorem evictEntries_eq_drop (capacity : Nat) :
    ∀ l : List (String × MediaData), ∃ n, evictEntries capacity l = l.drop n := by
  intro l
  induction l with
  | nil => exact ⟨0, rfl⟩
  | cons e rest ih =>
    rw [evictEntries]
    by_cases hc : totalSize (e :: rest) ≤ capacity ∨ rest = []
    · exact ⟨0, by rw [if_pos hc, List.drop_zero]⟩
    · obtain ⟨n, hn⟩ := ih
      exact ⟨n + 1, by rw [if_neg hc]; simpa using hn⟩

theorem totalSize_evict_le (capacity : Nat) (e : String × MediaData)
    (h : e.2.sizeBytes ≤ capacity) :
    ∀ l : List (String × MediaData), totalSize (evictEntries capacity (l ++ [e])) ≤ capacity := by
  intro l
  induction l with
  | nil =>
    rw [List.nil_append, evictEntries, if_pos (Or.inr rfl)]
    simpa [totalSize] using h
  | cons a l ih =>
    rw [List.cons_append, evictEntries]
    by_cases hc : totalSize (a :: (l ++ [e])) ≤ capacity ∨ l ++ [e] = []
    · rw [if_pos hc]
      rcases hc with hc | hc
      · exact hc
      · simp at hc
    · rw [if_neg hc]
      exact ih

theorem find_append_last (k : String) (d : MediaData) :
    ∀ l : List (String × MediaData), (∀ e ∈ l, (e.1 == k) = false) →
    (l ++ [(k, d)]).find? (fun e => e.1 == k) = some (k, d) := by
  intro l
  induction l with
  | nil => simp [List.find?]
  | cons a l ih =>
    intro h
    rw [List.cons_append, List.find?_cons, h a (List.mem_cons_self a l)]
    exact ih (fun e he => h e (List.mem_cons_of_mem a he))

theorem find_evict (capacity : Nat) (k : String) (d : MediaData) :
    ∀ l : List (String × MediaData), (∀ e ∈ l, (e.1 == k) = false) →
    (evictEntries capacity (l ++ [(k, d)])).find? (fun e => e.1 == k) = some (k, d) := by
  intro l
  induction l with
  | nil =>
    intro _
    rw [List.nil_append, evictEntries, if_pos (Or.inr rfl)]
    simp [List.find?]
  | cons a l ih =>
    intro h
    rw [List.cons_append, evictEntries]
    by_cases hc : totalSize (a :: (l ++ [(k, d)])) ≤ capacity ∨ l ++ [(k, d)] = []
    · rw [if_pos hc, List.find?_cons, h a (List.mem_cons_self a l)]
      exact find_append_last k d l (fun e he => h e (List.mem_cons_of_mem a he))
    · rw [if_neg hc]
      exact ih (fun e he => h e (List.mem_cons_of_mem a he))

theorem lruGet_lruPut (st : MediaCacheState) (k : String) (d : MediaData) :
    (lruGet (lruPut st k d) k).1 = some d := by
  unfold lruGet lruPut
  have hfilter : ∀ e ∈ st.entries.filter (fun e => e.1 != k), (e.1 == k) = false := by
    intro e he
    simpa using List.of_mem_filter he
  rw [find_evict st.capacity k d _ hfilter]

/-! ### The claims -/

/-- C1, counterexample.  The claim asserts that for every numerically equal
integer/float pair the digests differ because the scalar encoding tags the
numeric type.  It does not: `serialize_item` emits the raw 8-byte numpy
encoding with no tag, and the int64 bytes of `0` coincide with the IEEE-754
double bytes of `0.0` (bit pattern 0), so `hash_kwargs(a=0)` equals
`hash_kwargs(a=0.0)`. -/
theorem claim1_counterexample :
    serialize_item (V.int 0) = serialize_item (V.float 0) ∧
    hash_kwargs [("a", V.int 0)] = hash_kwargs [("a", V.float 0)] :=
  ⟨rfl, rfl⟩

/-- C1, amended.  The scalar leaf encoding carries no type tag: an int
serializes as its 8 little-endian int64 bytes and a float as the 8
little-endian bytes of its IEEE-754 double bit pattern
(`4607182418800017408` is the bit pattern of `1.0`).  The spec's example
still holds — `hash_kwargs(a=1) ≠ hash_kwargs(a=1.0)` — because those byte
patterns differ, not because of a tag; numerically equal pairs with equal
byte patterns (such as `0` and `0.0`) collide. -/
theorem claim1_theorem :
    serialize_item (V.int 1) = [1, 0, 0, 0, 0, 0, 0, 0] ∧
    serialize_item (V.float 4607182418800017408) = [0, 0, 0, 0, 0, 0, 240, 63] ∧
    hash_kwargs [("a", V.int 1)] ≠ hash_kwargs [("a", V.float 4607182418800017408)] := by
  refine ⟨rfl, rfl, ?_⟩
  decide

/-- C2, counterexample.  The claim asserts that the presence of any
`<modality>_uuids` field suffices for key resolution to return exactly the
UUID values with no hashing.  But a present `image_uuids` field holding an
empty list contributes no key, `cache_keys` stays empty, and the code falls
back to the content-hash branch, returning a digest instead of the (empty)
UUID value list. -/
theorem claim2_counterexample :
    get_cache_keys_from_mm_data [("image_uuids", V.list [])] ≠
      uuidCacheKeys [("image_uuids", V.list [])] := by
  have h1 : uuidCacheKeys [("image_uuids", V.list [])] = [] := rfl
  have h2 : get_cache_keys_from_mm_data [("image_uuids", V.list [])] =
      [V.str (hash_with_url_optimization [("image_uuids", V.list [])])] := rfl
  rw [h1, h2]
  simp

/-- C2, amended.  Whenever the `<modality>_uuids` fields contribute at least
one value (a list value contributes each element, a non-list value
contributes itself), key resolution returns exactly those UUID values in
modality order image, video, audio — `uuidCacheKeys` reads only the three
`_uuids` fields and performs no hashing, so every other field, including
`_url` fields, is ignored. -/
theorem claim2_theorem (mm_data : List (String × V)) (h : uuidCacheKeys mm_data ≠ []) :
    get_cache_keys_from_mm_data mm_data = uuidCacheKeys mm_data := by
  have hne : ¬((uuidCacheKeys mm_data).isEmpty = true) := by simpa using h
  simp only [get_cache_keys_from_mm_data]
  rw [if_neg hne]

/-- C2, witness: the spec's own example — a UUID field together with a URL
field resolves to exactly the UUID, ignoring the URL. -/
theorem claim2_witness :
    uuidCacheKeys [("image_uuids", V.list [V.str "u1"]), ("image_url", V.str "http://x/1.png")] ≠ [] ∧
    get_cache_keys_from_mm_data
        [("image_uuids", V.list [V.str "u1"]), ("image_url", V.str "http://x/1.png")]
      = [V.str "u1"] := by
  have h : uuidCacheKeys
      [("image_uuids", V.list [V.str "u1"]), ("image_url", V.str "http://x/1.png")] ≠ [] := by
    have he : uuidCacheKeys
        [("image_uuids", V.list [V.str "u1"]), ("image_url", V.str "http://x/1.png")]
        = [V.str "u1"] := rfl
    rw [he]
    simp
  refine ⟨h, ?_⟩
  rw [claim2_theorem _ h]
  rfl

/-- C3, counterexample.  The claim asserts that key resolution on a mapping
with neither a UUID nor any hashable field fails with an InvalidInput error.
It does not: on the empty mapping no code path raises — the fallback branch
hashes the empty keyword set and returns that digest (the BLAKE3 digest of
the empty byte stream) as the single cache key. -/
theorem claim3_counterexample :
    get_cache_keys_from_mm_data []
      = [V.str "af1349b9f5f9a1a6a0404dea36dcc9499bcb25c9adc112b7cc9a93cae41f3262"] := rfl

/-- C3, amended.  On a fields mapping with neither UUIDs nor any other field,
key resolution does not fail: it returns a single key, the content digest of
the empty keyword set — a well-formed 64-character digest. -/
theorem claim3_theorem :
    get_cache_keys_from_mm_data [] = [V.str (hash_kwargs [])] ∧
    (hash_kwargs []).length = 64 :=
  ⟨rfl, by decide⟩

/-- C6, counterexample.  The claim asserts that every pair of structurally
different inputs with equal flattened leaf bytes produces different encodings
because each leaf is prefixed by its index-labelled path.  That universal is
false: list index labels and dict key labels share one namespace, so the list
`["x"]` (element at index 0, label `a.0`) and the dict with the single entry
key `"0"` (label `a` ++ "." ++ "0" = `a.0`) emit exactly the same
label/payload pair, and `hash_kwargs(a=["x"])` equals
`hash_kwargs(a=\x7b"0": "x"\x7d)`. -/
theorem claim6_counterexample :
    iter_item_to_bytes "a" (V.list [V.str "x"])
        = iter_item_to_bytes "a" (V.dict [("0", V.str "x")]) ∧
    hash_kwargs [("a", V.list [V.str "x"])]
        = hash_kwargs [("a", V.dict [("0", V.str "x")])] :=
  ⟨rfl, rfl⟩

/-- C6, amended.  The index-labelled path prefixed to each leaf distinguishes
the spec's example — but not every structurally different pair with equal
flattened bytes (a list element at index `i` collides with a dict entry keyed
by the decimal string of `i`): `["ab"]` under key `a` yields the single pair
labelled `a.0`, while `["a","b"]` yields two pairs labelled `a.0` and `a.1`,
the concatenated byte streams differ, and so do the digests:
`hash_kwargs(a=["ab"]) ≠ hash_kwargs(a=["a","b"])`. -/
theorem claim6_theorem :
    iter_item_to_bytes "a" (V.list [V.str "ab"])
        = [(utf8Bytes "a.0", utf8Bytes "ab")] ∧
    iter_item_to_bytes "a" (V.list [V.str "a", V.str "b"])
        = [(utf8Bytes "a.0", utf8Bytes "a"), (utf8Bytes "a.1", utf8Bytes "b")] ∧
    concatenatedStream [("a", V.list [V.str "ab"])]
        ≠ concatenatedStream [("a", V.list [V.str "a", V.str "b"])] ∧
    hash_kwargs [("a", V.list [V.str "ab"])]
        ≠ hash_kwargs [("a", V.list [V.str "a", V.str "b"])] := by
  refine ⟨rfl, rfl, by decide, by decide⟩

/-- C9.  `_hash_with_url_optimization` returns exactly the digest of
`hash_kwargs` on the same keyword set: both the `_url`-string branch and the
fallback branch copy the value unchanged into `optimized_kwargs`, so the
optimization pass is the identity on its input. -/
theorem claim9_theorem (kwargs : List (String × V)) :
    hash_with_url_optimization kwargs = hash_kwargs kwargs := by
  unfold hash_with_url_optimization
  have h : kwargs.map (fun kv =>
      if kv.1.endsWith "_url" && isStrV kv.2 then (kv.1, kv.2) else (kv.1, kv.2)) = kwargs := by
    simp
  rw [h]

/-- C4, counterexample.  The claim asserts that `put` never raises for any
combination of arguments, but `MediaCache.put` raises
`ValueError("Either uuid or url must be provided")` when neither `uuid` nor
`url` is a non-empty string (Python truthiness). -/
theorem claim4_counterexample :
    MediaCache_put (mkMediaCache 10) ⟨"m", 1⟩ none none
      = Except.error "Either uuid or url must be provided" ∧
    MediaCache_put (mkMediaCache 10) ⟨"m", 1⟩ (some "") (some "")
      = Except.error "Either uuid or url must be provided" :=
  ⟨rfl, rfl⟩

/-- C4, amended.  `get` and `clear` never fail — a miss (no derivable key, or
key absent) is signalled by a `none` return with the state unchanged — and
`put` succeeds and returns normally whenever a cache key is derivable (uuid
or url a non-empty string); only a `put` with no derivable key raises. -/
theorem claim4_theorem :
    (∀ (st : MediaCacheState) (uuid url : Option String),
        resolveCacheKey uuid url = none → MediaCache_get st uuid url = (none, st)) ∧
    (∀ (st : MediaCacheState) (k : String),
        st.entries.find? (fun e => e.1 == k) = none → lruGet st k = (none, st)) ∧
    (∀ (st : MediaCacheState) (d : MediaData) (uuid url : Option String) (k : String),
        resolveCacheKey uuid url = some k →
        MediaCache_put st d uuid url = Except.ok (k, lruPut st k d)) ∧
    (∀ st : MediaCacheState, MediaCache_clear st = ⟨st.capacity, []⟩) := by
  refine ⟨?_, ?_, ?_, fun st => rfl⟩
  · intro st uuid url h
    unfold MediaCache_get
    rw [h]
  · intro st k h
    unfold lruGet
    rw [h]
  · intro st d uuid url k h
    unfold MediaCache_put
    rw [h]

/-- C4, witness: a keyless `get` returns absent without failing, and a `put`
with a uuid succeeds. -/
theorem claim4_witness :
    MediaCache_get (mkMediaCache 10) none none = (none, mkMediaCache 10) ∧
    MediaCache_put (mkMediaCache 10) ⟨"m", 1⟩ (some "u") none
      = Except.ok ("u", lruPut (mkMediaCache 10) "u" ⟨"m", 1⟩) :=
  ⟨claim4_theorem.1 _ _ _ rfl, claim4_theorem.2.2.1 _ _ _ _ _ rfl⟩

/-- C5.  For every keyword set, `hash_kwargs` is the lowercase hexadecimal
rendering — 64 characters, every character a lowercase hex digit — of the
BLAKE3 digest of the byte stream obtained by concatenating, pair by pair in
emission order, the UTF-8 label bytes immediately followed by the payload
bytes, with no separator or length prefix between segments. -/
theorem claim5_theorem (kwargs : List (String × V)) :
    hash_kwargs kwargs = hexString (blake3Bytes (concatenatedStream kwargs)) ∧
    (hash_kwargs kwargs).length = 64 ∧
    ∀ c ∈ (hash_kwargs kwargs).data, c ∈ hexDigitChars := by
  refine ⟨hash_kwargs_eq_stream_hash kwargs, ?_, ?_⟩
  · rw [hash_kwargs_eq_stream_hash, hexString_length, blake3Bytes_length]
  · intro c hc
    rw [hash_kwargs_eq_stream_hash, hexString_data] at hc
    simp only [List.mem_flatten, List.mem_map] at hc
    obtain ⟨l, ⟨b, _, rfl⟩, hcl⟩ := hc
    simp only [List.mem_cons, List.not_mem_nil, or_false] at hcl
    rcases hcl with h | h
    · rw [h]; exact hexChar_mem _
    · rw [h]; exact hexChar_mem _

/-- C5, witness: the theorem applied to a concrete keyword set. -/
theorem claim5_witness :
    hash_kwargs [("a", V.int 1)]
      = hexString (blake3Bytes (concatenatedStream [("a", V.int 1)])) ∧
    (hash_kwargs [("a", V.int 1)]).length = 64 :=
  ⟨(claim5_theorem [("a", V.int 1)]).1, (claim5_theorem [("a", V.int 1)]).2.1⟩

/-- C7.  Two numpy arrays with identical dtype string, identical shape and
identical element values serialize to identical bytes regardless of
C-contiguity: the contiguous branch reads the memory buffer (which, for a
C-contiguous array, is exactly the row-major bytes), the non-contiguous
branch takes the row-major contiguous copy, and no branch fails. -/
theorem claim7_theorem (a b : NDArray)
    (ha : a.cContiguous = true → a.buffer = a.rowMajor)
    (hb : b.cContiguous = true → b.buffer = b.rowMajor)
    (hd : a.dtypeStr = b.dtypeStr) (hs : a.shape = b.shape) (hr : a.rowMajor = b.rowMajor) :
    serialize_item (V.ndarray a) = serialize_item (V.ndarray b) := by
  have hdata : ∀ x : NDArray, (x.cContiguous = true → x.buffer = x.rowMajor) →
      (if x.cContiguous then x.buffer else x.rowMajor) = x.rowMajor := by
    intro x hx
    rcases hcc : x.cContiguous
    · simp [hcc]
    · simp [hcc, hx hcc]
  show serializeNDArray a = serializeNDArray b
  unfold serializeNDArray
  rw [hdata a ha, hdata b hb, hd, hs, hr]

/-- C7, witness: a C-contiguous 2-by-2 int8 array and a non-contiguous view
with a differently-ordered memory buffer but the same logical row-major
elements serialize identically. -/
theorem claim7_witness :
    serialize_item (V.ndarray ⟨"|i1", [2, 2], [1, 2, 3, 4], [1, 2, 3, 4], true⟩)
      = serialize_item (V.ndarray ⟨"|i1", [2, 2], [1, 3, 2, 4], [1, 2, 3, 4], false⟩) :=
  claim7_theorem _ _ (fun _ => rfl) (fun h => absurd h (by decide)) rfl rfl rfl

/-- C8, counterexample.  The claim asserts the total accounted size never
exceeds the capacity after a mutating operation, but a single payload larger
than the capacity is still inserted and retained (the cache degrades to the
one oversized entry), so after `put` of a 150-byte payload into a 100-byte
cache the total is 150. -/
theorem claim8_counterexample :
    MediaCache_put (mkMediaCache 100) ⟨"big", 150⟩ (some "k1") none
      = Except.ok ("k1", ⟨100, [("k1", ⟨"big", 150⟩)]⟩) ∧
    100 < totalSize [("k1", (⟨"big", 150⟩ : MediaData))] :=
  ⟨rfl, by decide⟩

/-- C8, amended.  After a `put` of a payload no larger than the capacity the
total accounted size is at most the capacity (whatever the prior state), the
eviction loop removes entries strictly in recency order — the surviving
entries are always a suffix, i.e. the most recently used — and the spec's
example holds: with capacity 100, putting 60-byte payloads under k1 then k2
evicts exactly k1, after which k1 misses and k2 hits. -/
theorem claim8_theorem :
    (∀ (st : MediaCacheState) (k : String) (d : MediaData),
        d.sizeBytes ≤ st.capacity →
        totalSize (lruPut st k d).entries ≤ st.capacity ∧
        (lruPut st k d).capacity = st.capacity) ∧
    (∀ (capacity : Nat) (l : List (String × MediaData)),
        ∃ n, evictEntries capacity l = l.drop n) ∧
    ((lruPut (lruPut (mkMediaCache 100) "k1" ⟨"m1", 60⟩) "k2" ⟨"m2", 60⟩).entries
        = [("k2", ⟨"m2", 60⟩)] ∧
     (MediaCache_get (lruPut (lruPut (mkMediaCache 100) "k1" ⟨"m1", 60⟩) "k2" ⟨"m2", 60⟩)
        (some "k1") none).1 = none ∧
     (MediaCache_get (lruPut (lruPut (mkMediaCache 100) "k1" ⟨"m1", 60⟩) "k2" ⟨"m2", 60⟩)
        (some "k2") none).1 = some ⟨"m2", 60⟩) := by
  refine ⟨?_, evictEntries_eq_drop, by decide, by decide, by decide⟩
  intro st k d h
  exact ⟨totalSize_evict_le st.capacity (k, d) h _, rfl⟩

/-- C8, witness: the size bound applied to a concrete put. -/
theorem claim8_witness :
    totalSize (lruPut (mkMediaCache 100) "k1" ⟨"m1", 60⟩).entries
      ≤ (mkMediaCache 100).capacity :=
  (claim8_theorem.1 (mkMediaCache 100) "k1" ⟨"m1", 60⟩ (by decide)).1

/-- C10.  `put` returns the key it stored under — the uuid itself whenever
uuid is a non-empty string, else the SHA-256 hex digest of the UTF-8 bytes of
url when url is a non-empty string — and `get` derives the lookup key by the
same rule, so a `get` with the same arguments right after the `put` finds the
stored payload. -/
theorem claim10_theorem (st : MediaCacheState) (d : MediaData) (uuid url : Option String)
    (k : String) (hk : resolveCacheKey uuid url = some k) :
    MediaCache_put st d uuid url = Except.ok (k, lruPut st k d) ∧
    (MediaCache_get (lruPut st k d) uuid url).1 = some d ∧
    (∀ u, uuid = some u → u ≠ "" → k = u) ∧
    ((uuid = none ∨ uuid = some "") → ∀ l, url = some l → k = get_url_hash l) := by
  refine ⟨?_, ?_, ?_, ?_⟩
  · unfold MediaCache_put
    rw [hk]
  · unfold MediaCache_get
    rw [hk]
    exact lruGet_lruPut st k d
  · intro u hu hne
    subst hu
    simp only [resolveCacheKey] at hk
    rw [if_neg (by simpa using hne)] at hk
    exact (Option.some_injective _ hk).symm
  · intro hu l hl
    subst hl
    have hurl : resolveUrlKey (some l) = some k := by
      rcases hu with hu | hu <;> subst hu <;> simpa [resolveCacheKey] using hk
    by_cases hle : l = ""
    · subst hle
      simp [resolveUrlKey] at hurl
    · simp only [resolveUrlKey] at hurl
      rw [if_neg (by simpa using hle)] at hurl
      exact (Option.some_injective _ hurl).symm

/-- C10, witness: the theorem applied to a concrete put-then-get. -/
theorem claim10_witness :
    MediaCache_put (mkMediaCache 10) ⟨"img", 3⟩ (some "u1") none
      = Except.ok ("u1", lruPut (mkMediaCache 10) "u1" ⟨"img", 3⟩) ∧
    (MediaCache_get (lruPut (mkMediaCache 10) "u1" ⟨"img", 3⟩) (some "u1") none).1
      = some ⟨"img", 3⟩ :=
  ⟨(claim10_theorem (mkMediaCache 10) ⟨"img", 3⟩ (some "u1") none "u1" rfl).1,
   (claim10_theorem (mkMediaCache 10) ⟨"img", 3⟩ (some "u1") none "u1" rfl).2.1⟩
